import Mathlib

/-!
Verification of the address validators in src/plugins/validators/index.ts and
of the Blackpay plugin in src/plugins/blackpay.ts.

The validators call the bech32 npm package (bech32.decode, bech32.fromWords,
bech32m.decode, bech32m.fromWords); those library functions are embedded below
from the package source (polymodStep, prefixChk, decode, fromWords with the
default 90-character LIMIT and the two encoding constants).  The remaining
external decoders are oracles from the point of view of the validator logic and
are passed as explicit function parameters:
  - bs58check.decode        : String to Option (List Nat)  (base58Validator)
  - cnBase58.decode         : String to Option String      (xmrValidator, the
                              Monero block-wise base58 decoder returns a hex
                              string)
  - keccak256               : List Nat to List Nat         (xmrValidator)
  - f4Unjumble              : List Nat to List Nat         (zecBech32mValidator)
Exceptions are modelled with Except String: a validator that lets a library
exception escape returns Except.error, one that returns a boolean returns
Except.ok.  JavaScript case mapping is modelled for ASCII letters, which is
exact for every string the bech32 decoder can accept.
Strings are handled through String.data as lists of characters; bytes are
natural numbers below 256.
-/

/-- ASCII lower-casing of one character, the restriction of the JavaScript
String.prototype.toLowerCase used by bech32.decode and by the invoice branch of
bech32Validator. -/
def toLowerCh (c : Char) : Char :=
  if 'A' ≤ c ∧ c ≤ 'Z' then Char.ofNat (c.toNat + 32) else c

/-- ASCII upper-casing of one character. -/
def toUpperCh (c : Char) : Char :=
  if 'a' ≤ c ∧ c ≤ 'z' then Char.ofNat (c.toNat - 32) else c

/-- Lower-case a whole string, as a character list. -/
def lowerL (cs : List Char) : List Char := cs.map toLowerCh

/-- One lower-case hexadecimal digit, as produced by Buffer.toString with the
hex encoding. -/
def hexDigitCh (n : Nat) : Char :=
  if n < 10 then Char.ofNat (48 + n) else Char.ofNat (87 + n)

/-- The two hex digits of one byte. -/
def byteHex (b : Nat) : List Char := [hexDigitCh (b / 16 % 16), hexDigitCh (b % 16)]

/-- Hex representation of a byte list: Buffer.from(bytes).toString(hex). -/
def hexOfBytes (bs : List Nat) : List Char := bs.flatMap byteHex

/-- UTF-8 encoding of one character (1 to 4 bytes). -/
def utf8Enc (c : Char) : List Nat :=
  let n := c.toNat
  if n < 0x80 then [n]
  else if n < 0x800 then [0xc0 ||| (n >>> 6), 0x80 ||| (n &&& 0x3f)]
  else if n < 0x10000 then
    [0xe0 ||| (n >>> 12), 0x80 ||| ((n >>> 6) &&& 0x3f), 0x80 ||| (n &&& 0x3f)]
  else
    [0xf0 ||| (n >>> 18), 0x80 ||| ((n >>> 12) &&& 0x3f),
     0x80 ||| ((n >>> 6) &&& 0x3f), 0x80 ||| (n &&& 0x3f)]

/-- UTF-8 bytes of a string: Buffer.from(string). -/
def strUtf8 (s : String) : List Nat := s.data.flatMap utf8Enc

/-! ### The bech32 npm package -/

/-- One step of the BCH checksum of the bech32 npm package (function
polymodStep): shift the 30-bit register five bits and xor in the generator
constants selected by the five bits shifted out. -/
def polymodStep (pre : Nat) : Nat :=
  let b := pre >>> 25
  (((pre % 0x2000000) <<< 5)
    ^^^ (if b % 2 = 1 then 0x3b6a57b2 else 0)
    ^^^ (if (b >>> 1) % 2 = 1 then 0x26508e6d else 0)
    ^^^ (if (b >>> 2) % 2 = 1 then 0x1ea119fa else 0)
    ^^^ (if (b >>> 3) % 2 = 1 then 0x3d4233dd else 0)
    ^^^ (if (b >>> 4) % 2 = 1 then 0x2a1462b3 else 0))

/-- Checksum state after absorbing the human-readable part (function prefixChk
of the bech32 package): high bits of each character, a zero, then low bits;
none when some character is outside the range 33..126. -/
def prefixChk (pre : List Char) : Option Nat := do
  let chk1 ← pre.foldlM
    (fun chk c =>
      if c.toNat < 33 ∨ c.toNat > 126 then none
      else some (polymodStep chk ^^^ (c.toNat >>> 5))) 1
  let chk2 := polymodStep chk1
  some (pre.foldl (fun chk c => polymodStep chk ^^^ (c.toNat % 32)) chk2)

/-- The 32-character bech32 data alphabet of the package. -/
def bech32Alphabet : List Char := "qpzry9x8gf2tvdw0s3jn54khce6mua7l".data

/-- First index of a character in a list, if present. -/
def idxIn (c : Char) : List Char → Option Nat
  | [] => none
  | x :: xs => if x = c then some 0 else (idxIn c xs).map (· + 1)

/-- ALPHABET_MAP of the package: 5-bit value of a data character. -/
def alphabetIdx (c : Char) : Option Nat := idxIn c bech32Alphabet

/-- Index of the last occurrence of a character (String.prototype.lastIndexOf,
none for not found). -/
def lastIdxOf (c : Char) : List Char → Option Nat
  | [] => none
  | x :: xs =>
    match lastIdxOf c xs with
    | some i => some (i + 1)
    | none => if x = c then some 0 else none

/-- Final checksum constant of bech32 (BIP-173). -/
def BECH32_CONST : Nat := 1

/-- Final checksum constant of bech32m (BIP-350). -/
def BECH32M_CONST : Nat := 0x2bc830a3

/-- Function decode of the bech32 npm package, for either encoding constant.
The second argument is the optional LIMIT parameter: the package computes
LIMIT = LIMIT or 90, so an absent or zero limit becomes the default 90.
Returns the human-readable part and the data words excluding the six checksum
characters, or none where the package throws (too short, over the limit, mixed
case, no separator, empty human-readable part, data too short, invalid
character, bad checksum). -/
def bech32Decode (enc : Nat) (limitArg : Option Nat) (str : String) :
    Option (List Char × List Nat) :=
  let LIM := match limitArg with | some n => if n = 0 then 90 else n | none => 90
  let cs := str.data
  if cs.length < 8 then none
  else if cs.length > LIM then none
  else
    let lowered := cs.map toLowerCh
    if cs ≠ lowered ∧ cs ≠ cs.map toUpperCh then none
    else
      let s := lowered
      match lastIdxOf '1' s with
      | none => none
      | some split =>
        if split = 0 then none
        else
          let pre := s.take split
          let wordChars := s.drop (split + 1)
          if wordChars.length < 6 then none
          else
            match prefixChk pre with
            | none => none
            | some chk0 =>
              match wordChars.mapM alphabetIdx with
              | none => none
              | some vals =>
                let chk := vals.foldl (fun a v => polymodStep a ^^^ v) chk0
                if chk = enc then some (pre, vals.take (vals.length - 6)) else none

/-- The accumulation loop of function convert of the package for the 5-bit to
8-bit direction: returns the final accumulator value, the leftover bit count
and the produced bytes. -/
def convertLoop : List Nat → Nat → Nat → List Nat → Nat × Nat × List Nat
  | [], value, bits, acc => (value, bits, acc)
  | d :: rest, value, bits, acc =>
    let value := (value <<< 5) ||| d
    let bits := bits + 5
    if 8 ≤ bits then
      convertLoop rest value (bits - 8) (acc ++ [(value >>> (bits - 8)) &&& 255])
    else convertLoop rest value bits acc

/-- Function fromWords of the package: repack 5-bit words into bytes.  The
package throws Error(Excess padding) or Error(Non-zero padding) on bad
padding; that is modelled as Except.error with the same message. -/
def fromWordsE (words : List Nat) : Except String (List Nat) :=
  let r := convertLoop words 0 0 []
  if 5 ≤ r.2.1 then .error "Excess padding"
  else if (r.1 <<< (8 - r.2.1)) &&& 255 ≠ 0 then .error "Non-zero padding"
  else .ok r.2.2

deriving instance DecidableEq for Except

/-! ### Validator configurations -/

/-- Configuration for the bech32 family validators.  The fields model
opts.mainNetPrefix, opts.testNetPrefix and opts.regtestPrefix of the source
(string-valued for this family). -/
structure Bech32Opts where
  mainNetPref : String
  testNetPref : String
  regtestPref : String
deriving DecidableEq

/-- Configuration for base58Validator.  bufferLength keeps its source name;
the other fields model opts.mainNetPrefix, opts.testNetPrefix and
opts.regtestPrefix, each a list of acceptable byte-sequence alternatives. -/
structure Base58Opts where
  bufferLength : Nat
  mainNetPfx : List (List Nat)
  testNetPfx : List (List Nat)
  regtestPfx : List (List Nat)
deriving DecidableEq

/-- Configuration for xmrValidator.  The fields model the six source fields
opts.mainNetPublicAddrPrefix, opts.mainNetIntegratedAddrPrefix,
opts.mainNetSubAddrPrefix and the three testNet counterparts, each a
hex-string prefix. -/
structure XmrOpts where
  mainNetPublicAddrPfx : String
  mainNetIntegratedAddrPfx : String
  mainNetSubAddrPfx : String
  testNetPublicAddrPfx : String
  testNetIntegratedAddrPfx : String
  testNetSubAddrPfx : String
deriving DecidableEq

/-! ### base58Validator -/

/-- Inner loop of the source function validatePrefix for one alternative: walk
the alternative byte by byte, break on the first mismatch (a missing buffer
byte mismatches), return true only when the last byte of the alternative
matched. -/
def altMatches : List Nat → List Nat → Bool
  | [], _ => false
  | [c], b :: _ => c == b
  | _ :: _, [] => false
  | c :: c2 :: cs, b :: bs => c == b && altMatches (c2 :: cs) bs

/-- Source function validatePrefix: true when some alternative of the prefix
list fully matches the start of the decoded buffer. -/
def validatePfx (pfx : List (List Nat)) (buf : List Nat) : Bool :=
  pfx.any (fun cur => altMatches cur buf)

/-- Source function base58Validator.  The bs58check decoder is an oracle
parameter; it returns none where the library throws, and the catch block of
the source turns that into false.  The selected prefix list of a recognized
network is an array and arrays are truthy in JavaScript, so the truthiness
test of the source reduces to the network being recognized. -/
def base58Validator (decode : String → Option (List Nat)) (network : String)
    (address : String) (opts : Base58Opts) : Bool :=
  match decode address with
  | none => false
  | some buf =>
    if buf.length ≠ opts.bufferLength then false
    else if network = "main" then validatePfx opts.mainNetPfx buf
    else if network = "test" then validatePfx opts.testNetPfx buf
    else if network = "regtest" then validatePfx opts.regtestPfx buf
    else false

/-! ### bech32mValidator -/

/-- Source function bech32mValidator.  Only bech32m.decode is inside the try
block; bech32m.fromWords at line 58 is outside it, so a padding error there is
an escaping exception (Except.error).  With an empty word list the witness
version is undefined and both JavaScript comparisons with undefined are false,
so the version guard does not reject. -/
def bech32mValidatorE (network : String) (address : String) (opts : Bech32Opts) :
    Except String Bool :=
  match bech32Decode BECH32M_CONST none address with
  | none => .ok false
  | some (pre, words) =>
    let versionBad : Bool :=
      match words.head? with
      | some v => decide (v < 1 ∨ 16 < v)
      | none => false
    if versionBad then .ok false
    else
      match fromWordsE words.tail with
      | .error e => .error e
      | .ok data =>
        if data.length < 2 ∨ 40 < data.length then .ok false
        else
          if network = "main" ∧ pre = opts.mainNetPref.data then .ok true
          else if network = "test" ∧ pre = opts.testNetPref.data then .ok true
          else if network = "regtest" ∧ pre = opts.regtestPref.data then .ok true
          else .ok false

/-! ### bech32Validator and isBech32Address -/

/-- Source function bech32Validator.  The limit parameter is optional; decode
receives it unchanged (a zero or missing limit becomes the default 90 inside
decode).  The invoice branch is taken when the limit is truthy, that is
present and nonzero.  bech32.fromWords at line 91 is outside the try block, so
a padding error escapes.  A missing first word compares as undefined and
undefined !== 0 holds, so an empty word list is rejected by the version
guard. -/
def bech32ValidatorE (network : String) (address : String) (opts : Bech32Opts)
    (limit : Option Nat) : Except String Bool :=
  match bech32Decode BECH32_CONST limit address with
  | none => .ok false
  | some (pre, words) =>
    let invoiceMode : Bool :=
      match limit with
      | some n => decide (n ≠ 0)
      | none => false
    if invoiceMode then
      if network = "main" ∧ opts.mainNetPref.data.isPrefixOf (lowerL address.data) = true then
        .ok true
      else if network = "test" ∧ opts.testNetPref.data.isPrefixOf (lowerL address.data) = true then
        .ok true
      else .ok false
    else
      match words.head? with
      | some 0 =>
        match fromWordsE words.tail with
        | .error e => .error e
        | .ok data =>
          if data.length ≠ 20 ∧ data.length ≠ 32 then .ok false
          else
            if network = "main" ∧ pre = opts.mainNetPref.data then .ok true
            else if network = "test" ∧ pre = opts.testNetPref.data then .ok true
            else if network = "regtest" ∧ pre = opts.regtestPref.data then .ok true
            else .ok false
      | _ => .ok false

/-- Source function isBech32Address: the main call, then the test call through
the short-circuiting JavaScript or, which also propagates an exception of the
first call. -/
def isBech32AddressE (address : String) (opts : Bech32Opts) (lengthLimit : Nat) :
    Except String Bool :=
  match bech32ValidatorE "main" address opts (some lengthLimit) with
  | .error e => .error e
  | .ok true => .ok true
  | .ok false => bech32ValidatorE "test" address opts (some lengthLimit)

/-! ### zecBech32Validator -/

/-- Source function zecBech32Validator: bech32.decode is called with no limit
argument, hence with the default 90-character LIMIT of the package; all words
are repacked (no witness version is skipped); bech32.fromWords at line 117 is
outside the try block, so a padding error escapes. -/
def zecBech32ValidatorE (network : String) (address : String) (opts : Bech32Opts) :
    Except String Bool :=
  match bech32Decode BECH32_CONST none address with
  | none => .ok false
  | some (pre, words) =>
    match fromWordsE words with
    | .error e => .error e
    | .ok data =>
      if data.length ≠ 43 then .ok false
      else
        if network = "main" ∧ pre = opts.mainNetPref.data then .ok true
        else if network = "test" ∧ pre = opts.testNetPref.data then .ok true
        else .ok false

/-! ### zecBech32mValidator -/

/-- Inner function confirmPadding of zecBech32mValidator: hex of the UTF-8
bytes of the configured prefix string, right-padded with a 32-zero mask and
truncated to the mask length, compared with the last 32 hex characters of the
de-jumbled payload. -/
def confirmPadding (unjumbled : List Nat) (humanReadiblePadding : String) : Bool :=
  let humanReadibleBuffer := hexOfBytes (strUtf8 humanReadiblePadding)
  let hexAll := hexOfBytes unjumbled
  let lastBytes := hexAll.drop (hexAll.length - 32)
  let paddingMask : List Char := List.replicate 32 '0'
  let paddedRes := (humanReadibleBuffer ++ paddingMask).take 32
  lastBytes == paddedRes

/-- Source function zecBech32mValidator.  bech32m.decode is called with limit
512 inside the try block; bech32m.fromWords at line 148 is outside it, so a
padding error escapes.  The reverseF4Jumble transform lives in the crypto
directory outside the analyzed sources and is passed as an oracle parameter.
The decoded human-readable part is never compared with anything; only
confirmPadding on the de-jumbled bytes decides. -/
def zecBech32mValidatorE (unjumble : List Nat → List Nat) (network : String)
    (address : String) (opts : Bech32Opts) : Except String Bool :=
  match bech32Decode BECH32M_CONST (some 512) address with
  | none => .ok false
  | some (_pre, words) =>
    match fromWordsE words with
    | .error e => .error e
    | .ok data =>
      let res := unjumble data
      if network = "main" ∧ confirmPadding res opts.mainNetPref = true then .ok true
      else if network = "test" ∧ confirmPadding res opts.testNetPref = true then .ok true
      else .ok false

/-! ### xmrValidator -/

/-- Value of a hexadecimal digit, both cases, as accepted by parseInt with
base 16. -/
def hexDigitVal (c : Char) : Option Nat :=
  if '0' ≤ c ∧ c ≤ '9' then some (c.toNat - 48)
  else if 'a' ≤ c ∧ c ≤ 'f' then some (c.toNat - 87)
  else if 'A' ≤ c ∧ c ≤ 'F' then some (c.toNat - 55)
  else none

/-- parseInt of a two-character slice with base 16 as stored into a
Uint8Array: parseInt takes the longest valid digit run from the start, and a
NaN result (no valid leading digit) is coerced to 0 by the typed array. -/
def parseHexPair (c1 c2 : Char) : Nat :=
  match hexDigitVal c1, hexDigitVal c2 with
  | some a, some b => 16 * a + b
  | some a, none => a
  | none, _ => 0

/-- The byte-building loop of the inner function hexToBin. -/
def hexPairsToBytes : List Char → List Nat
  | c1 :: c2 :: rest => parseHexPair c1 c2 :: hexPairsToBytes rest
  | _ => []

/-- Inner function hexToBin of xmrValidator: null (none) for a hex string of
odd length, otherwise the byte list of the consecutive pairs. -/
def hexToBin (hex : List Char) : Option (List Nat) :=
  if hex.length % 2 ≠ 0 then none else some (hexPairsToBytes hex)

/-- Source function xmrValidator.  The cnBase58 decoder (which lives in the
crypto directory outside the analyzed sources and returns a hex string, or
throws, modelled by none) and keccak256 (a total external hash returning 32
bytes) are oracle parameters.  The inner keccak256Checksum returns null for a
null payload, and null never equals the string addrChecksum, so an odd-length
payload hex can never validate.  The source requires lodash/fp, whose
startsWith takes the target first: the tests are on the whole decoded string,
checksum suffix included. -/
def xmrValidator (k : List Nat → List Nat) (cnDecode : String → Option String)
    (network : String) (address : String) (opts : XmrOpts) : Bool :=
  match cnDecode address with
  | none => false
  | some decoded =>
    let dc := decoded.data
    let addrChecksum := dc.drop (dc.length - 8)
    let hashChecksum : Option (List Char) :=
      (hexToBin (dc.take (dc.length - 8))).map (fun bs => (hexOfBytes (k bs)).take 8)
    let matchesMainNetPfx : Bool :=
      opts.mainNetPublicAddrPfx.data.isPrefixOf dc
        || opts.mainNetIntegratedAddrPfx.data.isPrefixOf dc
        || opts.mainNetSubAddrPfx.data.isPrefixOf dc
    let matchesTestNetPfx : Bool :=
      opts.testNetPublicAddrPfx.data.isPrefixOf dc
        || opts.testNetIntegratedAddrPfx.data.isPrefixOf dc
        || opts.testNetSubAddrPfx.data.isPrefixOf dc
    if network = "main" ∧ matchesMainNetPfx = true ∧ hashChecksum = some addrChecksum then true
    else if network = "test" ∧ matchesTestNetPfx = true ∧ hashChecksum = some addrChecksum then true
    else false

/-! ### Blackpay plugin -/

/-- Character codes of the symbols allowed in the local part of the email
regular expression of Blackpay.validate, besides letters and digits: dot,
exclamation, hash, dollar, percent, ampersand, apostrophe, asterisk, plus,
slash, equals, question mark, caret, underscore, backquote, left brace,
vertical bar, right brace, tilde, hyphen. -/
def isLocalSymbolCode (n : Nat) : Bool :=
  [46, 33, 35, 36, 37, 38, 39, 42, 43, 47, 61, 63, 94, 95, 96, 123, 124, 125, 126, 45].contains n

/-- One character of the local-part character class of the regular
expression. -/
def isLocalChar (c : Char) : Bool := c.isAlphanum || isLocalSymbolCode c.toNat

/-- One character allowed anywhere inside a domain label: ASCII letter, digit
or hyphen (code 45). -/
def isLabelChar (c : Char) : Bool := c.isAlphanum || c.toNat == 45

/-- One domain label of the regular expression: an alphanumeric character,
optionally followed by up to sixty-one letters, digits or hyphens and a final
alphanumeric character.  Equivalently: nonempty, at most 63 characters, every
character a letter, digit or hyphen, first and last characters
alphanumeric. -/
def labelOK (l : List Char) : Bool :=
  decide (1 ≤ l.length) && decide (l.length ≤ 63) && l.all isLabelChar
    && (match l.head? with | some c => c.isAlphanum | none => false)
    && (match l.getLast? with | some c => c.isAlphanum | none => false)

/-- The anchored email regular expression of Blackpay.validate as a decision
procedure: a nonempty run of local characters, the at sign, then dot-separated
labels.  No local character and no label character is the at sign, so the at
sign of a match is the first one in the string. -/
def emailRegexTest (s : String) : Bool :=
  let loc := s.data.takeWhile (fun c => c != '@')
  match s.data.dropWhile (fun c => c != '@') with
  | [] => false
  | _ :: dom =>
    decide (loc ≠ []) && loc.all isLocalChar && (dom.splitOn '.').all labelOK

/-- Method validate of the Blackpay plugin (src/plugins/blackpay.ts, lines 34
to 37): the network argument (string, null or undefined in the source,
modelled as Option (Option String)) is ignored and the address is tested
against the email regular expression. -/
def blackpayValidate (_network : Option (Option String)) (address : String) : Bool :=
  emailRegexTest address

/-- Declarative reading of the email regular expression used for comparison
with the executable test: some decomposition into a nonempty local part, the
at sign and a nonempty dot-separated list of valid labels. -/
def EmailShape (s : String) : Prop :=
  ∃ loc dom : List Char, ∃ labels : List (List Char),
    s.data = loc ++ '@' :: dom ∧ loc ≠ [] ∧ (∀ c ∈ loc, isLocalChar c = true) ∧
    labels ≠ [] ∧ dom = List.intercalate ['.'] labels ∧ ∀ l ∈ labels, labelOK l = true

/-! ### Concrete fixtures for witnesses and counterexamples -/

/-- Bitcoin-style bech32 configuration. -/
def btcOpts : Bech32Opts := ⟨"bc", "tb", "bcrt"⟩

/-- Zcash unified address configuration. -/
def zecUniOpts : Bech32Opts := ⟨"u", "utest", ""⟩

/-- Zcash sapling configuration. -/
def zecSapOpts : Bech32Opts := ⟨"zs", "ztestsapling", ""⟩

/-- Configuration whose main-net prefix is a 15-character human-readable
part, used to exhibit the 90-character decode ceiling. -/
def zecLongOpts : Bech32Opts := ⟨"zzzzzzzzzzzzzzz", "ztestsapling", ""⟩

/-- A bech32 string with human-readable part bc and data words [0, 0]: the
checksum is valid, the witness version is 0, and repacking the single
remaining 5-bit word leaves five leftover bits, the Excess padding case of
fromWords. -/
def padAddr : String := "bc1qqsa7s0f"

/-- A bech32m string with human-readable part u whose 26 data words repack to
the sixteen bytes 0x75, 0, ..., 0 with zero padding bits. -/
def uniAddr : String := "u1w5" ++ String.mk (List.replicate 24 'q') ++ "3ck9qq"

/-- The data words of uniAddr. -/
def uniWords : List Nat := 14 :: 20 :: List.replicate 24 0

/-- The repacked bytes of uniWords. -/
def uniBytes : List Nat := 117 :: List.replicate 15 0

/-- A 91-character bech32 string (15-character human-readable part, 69 zero
data words repacking to 43 zero bytes, valid checksum): over the default
90-character LIMIT of the package decoder. -/
def zecLongAddr : String := "zzzzzzzzzzzzzzz1" ++ String.mk (List.replicate 69 'q') ++ "qxw0vc"

/-- A 78-character bech32 string with human-readable part zs, 69 zero data
words repacking to 43 zero bytes and a valid checksum. -/
def zecSapAddr : String := "zs1" ++ String.mk (List.replicate 69 'q') ++ "pq6d8g"

/-- A valid bech32 string with human-readable part bc and no data words. -/
def invoiceAddr : String := "bc1gmk9yu"

/-- The Keccak-256 digest of the empty byte string. -/
def keccakEmptyDigest : List Nat :=
  [0xc5, 0xd2, 0x46, 0x01, 0x86, 0xf7, 0x23, 0x3c, 0x92, 0x7e, 0x7d, 0xb2,
   0xdc, 0xc7, 0x03, 0xc0, 0xe5, 0x00, 0xb6, 0x53, 0xca, 0x82, 0x27, 0x3b,
   0x7b, 0xfa, 0xd8, 0x04, 0x5d, 0x85, 0xa4, 0x70]

/-- A hash oracle that agrees with Keccak-256 on the empty input, the only
input it is applied to in the Monero counterexample. -/
def kEmptyOracle : List Nat → List Nat := fun _ => keccakEmptyDigest

/-- A cnBase58 oracle whose decoded hex string is exactly the eight
checksum characters of the empty payload. -/
def cnEmptyOracle : String → Option String := fun _ => some "c5d24601"

/-- Monero configuration whose main-net public prefix is the first hex byte of
the Keccak-256 digest of the empty string. -/
def xmrCeOpts : XmrOpts := ⟨"c5", "zz", "zz", "zz", "zz", "zz"⟩

/-- A base58 oracle returning twenty-one bytes 0x41 for every input. -/
def b58CeDecode : String → Option (List Nat) := fun _ => some (List.replicate 21 65)

/-- Base58 configuration whose main-net prefix list consists of one empty
alternative. -/
def b58CeOpts : Base58Opts := ⟨21, [[]], [[111]], [[111]]⟩

/-! ### Helper lemmas -/

theorem ifChain3_ok_true (p1 p2 p3 : Prop) [Decidable p1] [Decidable p2] [Decidable p3] :
    ((if p1 then (Except.ok true : Except String Bool)
      else if p2 then .ok true else if p3 then .ok true else .ok false) = .ok true) ↔
      (p1 ∨ p2 ∨ p3) := by
  split_ifs <;> simp_all

/-! ### C1 -/

/-- C1: the totality contract fails on the code.  The candidate padAddr is a
valid bech32 string whose single post-version data word cannot be repacked
(five leftover bits, the Excess padding case), and bech32.fromWords is called
at line 91 outside the try block of bech32Validator, so the library exception
escapes to the caller instead of yielding false. -/
theorem c1_exception_escapes :
    bech32ValidatorE "main" padAddr btcOpts none = .error "Excess padding" := by
  rfl

/-! ### C10 -/

/-- C10: a supplied length limit equal to 0 behaves exactly as standard mode:
the decode limit falls back to the default 90 in both cases (LIMIT = LIMIT or
90 in the package) and the truthiness test of the source makes the invoice
branch unreachable for a zero limit, so the validator is literally the same
function as with no limit at all. -/
theorem c10_zero_limit_standard (network address : String) (opts : Bech32Opts) :
    bech32ValidatorE network address opts (some 0) =
      bech32ValidatorE network address opts none := by
  rfl

/-! ### C5 -/

/-- C5: in standard mode (no limit) bech32Validator accepts exactly the
candidates that decode under the bech32 checksum (with the default package
limit), whose first 5-bit word is 0, whose remaining words repack to exactly
20 or 32 bytes, and whose decoded human-readable part equals the configured
prefix of the given network. -/
theorem c5_bech32_standard (network address : String) (opts : Bech32Opts) :
    bech32ValidatorE network address opts none = .ok true ↔
      ∃ pre words data,
        bech32Decode BECH32_CONST none address = some (pre, words) ∧
        words.head? = some 0 ∧ fromWordsE words.tail = .ok data ∧
        (data.length = 20 ∨ data.length = 32) ∧
        ((network = "main" ∧ pre = opts.mainNetPref.data) ∨
         (network = "test" ∧ pre = opts.testNetPref.data) ∨
         (network = "regtest" ∧ pre = opts.regtestPref.data)) := by
  constructor
  · intro h
    unfold bech32ValidatorE at h
    cases hdec : bech32Decode BECH32_CONST none address with
    | none => rw [hdec] at h; simp at h
    | some pw =>
      obtain ⟨pre, words⟩ := pw
      rw [hdec] at h
      simp only [] at h
      rw [if_neg (show ¬(false = true) by simp)] at h
      cases hh : words.head? with
      | none => rw [hh] at h; simp at h
      | some v =>
        rw [hh] at h
        match v with
        | Nat.succ n => simp at h
        | 0 =>
          cases hfw : fromWordsE words.tail with
          | error e => rw [hfw] at h; simp at h
          | ok data =>
            rw [hfw] at h
            simp only [] at h
            by_cases hlen : data.length ≠ 20 ∧ data.length ≠ 32
            · rw [if_pos hlen] at h; simp at h
            · rw [if_neg hlen] at h
              rw [ifChain3_ok_true] at h
              refine ⟨pre, words, data, rfl, hh, hfw, ?_, h⟩
              rcases eq_or_ne data.length 20 with h20 | h20
              · exact Or.inl h20
              · rcases eq_or_ne data.length 32 with h32 | h32
                · exact Or.inr h32
                · exact absurd ⟨h20, h32⟩ hlen
  · rintro ⟨pre, words, data, hdec, hh, hfw, hlen, hnet⟩
    unfold bech32ValidatorE
    rw [hdec]
    simp only []
    rw [if_neg (show ¬(false = true) by simp)]
    rw [hh, hfw]
    simp only []
    rw [if_neg (show ¬(data.length ≠ 20 ∧ data.length ≠ 32) by tauto)]
    exact (ifChain3_ok_true _ _ _).mpr hnet

/-! ### C4 -/

/-- C4: bech32mValidator accepts exactly the candidates that decode under the
bech32m checksum, whose first 5-bit word (witness version) is in the range 1
to 16, whose remaining words repack to between 2 and 40 bytes, and whose
decoded human-readable part equals the configured prefix of the given network;
in particular a version-17 payload is always rejected. -/
theorem c4_bech32m_validator (network address : String) (opts : Bech32Opts) :
    bech32mValidatorE network address opts = .ok true ↔
      ∃ pre words v data,
        bech32Decode BECH32M_CONST none address = some (pre, words) ∧
        words.head? = some v ∧ 1 ≤ v ∧ v ≤ 16 ∧
        fromWordsE words.tail = .ok data ∧
        2 ≤ data.length ∧ data.length ≤ 40 ∧
        ((network = "main" ∧ pre = opts.mainNetPref.data) ∨
         (network = "test" ∧ pre = opts.testNetPref.data) ∨
         (network = "regtest" ∧ pre = opts.regtestPref.data)) := by
  constructor
  · intro h
    unfold bech32mValidatorE at h
    cases hdec : bech32Decode BECH32M_CONST none address with
    | none => rw [hdec] at h; simp at h
    | some pw =>
      obtain ⟨pre, words⟩ := pw
      rw [hdec] at h
      simp only [] at h
      cases hh : words.head? with
      | none =>
        rw [hh] at h
        obtain rfl : words = [] := List.head?_eq_none_iff.mp hh
        simp [fromWordsE, convertLoop] at h
      | some v =>
        rw [hh] at h
        by_cases hv : v < 1 ∨ 16 < v
        · rw [if_pos (by simpa using hv)] at h; simp at h
        · rw [if_neg (show ¬(decide (v < 1 ∨ 16 < v) = true) by simpa using hv)] at h
          push_neg at hv
          cases hfw : fromWordsE words.tail with
          | error e => rw [hfw] at h; simp at h
          | ok data =>
            rw [hfw] at h
            simp only [] at h
            by_cases hlen : data.length < 2 ∨ 40 < data.length
            · rw [if_pos hlen] at h; simp at h
            · rw [if_neg hlen] at h
              rw [ifChain3_ok_true] at h
              push_neg at hlen
              exact ⟨pre, words, v, data, rfl, hh, hv.1, hv.2, hfw, hlen.1, hlen.2, h⟩
  · rintro ⟨pre, words, v, data, hdec, hh, hv1, hv2, hfw, hl1, hl2, hnet⟩
    unfold bech32mValidatorE
    rw [hdec]
    simp only []
    rw [hh]
    rw [if_neg (show ¬(decide (v < 1 ∨ 16 < v) = true) by simp; omega)]
    rw [hfw]
    simp only []
    rw [if_neg (show ¬(data.length < 2 ∨ 40 < data.length) by omega)]
    exact (ifChain3_ok_true _ _ _).mpr hnet

/-! ### C3 -/

set_option maxRecDepth 100000 in
/-- C3 counterexample: a 91-character candidate that decodes under the bech32
checksum when the ceiling admits its own length, repacks to exactly 43 bytes
and carries the configured main-net human-readable part, yet
zecBech32Validator rejects it: bech32.decode is called with no limit argument,
which means the default 90-character ceiling of the package, not the absence
of a ceiling the claim asserts. -/
theorem c3_counterexample :
    zecBech32ValidatorE "main" zecLongAddr zecLongOpts = .ok false ∧
    bech32Decode BECH32_CONST (some zecLongAddr.length) zecLongAddr =
      some (zecLongOpts.mainNetPref.data, List.replicate 69 0) ∧
    fromWordsE (List.replicate 69 0) = .ok (List.replicate 43 0) ∧
    (List.replicate 43 (0 : Nat)).length = 43 := by
  refine ⟨by rfl, by decide, by decide, by decide⟩

/-- C3 amended: zecBech32Validator decodes with the default 90-character
ceiling of the package (so candidates longer than 90 characters are always
rejected); on decode failure it rejects, and when the repacking of all decoded
words succeeds it accepts exactly the 43-byte payloads whose decoded
human-readable part equals the configured prefix for main or test. -/
theorem c3_zec_bech32 (network address : String) (opts : Bech32Opts) :
    (bech32Decode BECH32_CONST none address = none →
      zecBech32ValidatorE network address opts = .ok false) ∧
    (∀ pre words data,
      bech32Decode BECH32_CONST none address = some (pre, words) →
      fromWordsE words = .ok data →
      zecBech32ValidatorE network address opts =
        .ok (decide (data.length = 43 ∧
          ((network = "main" ∧ pre = opts.mainNetPref.data) ∨
           (network = "test" ∧ pre = opts.testNetPref.data))))) := by
  constructor
  · intro hdec
    unfold zecBech32ValidatorE
    rw [hdec]
  · intro pre words data hdec hfw
    unfold zecBech32ValidatorE
    rw [hdec]
    simp only []
    rw [hfw]
    simp only []
    by_cases h43 : data.length ≠ 43
    · rw [if_pos h43]
      rw [decide_eq_false (fun hc => h43 hc.1)]
    · rw [if_neg h43]
      push_neg at h43
      split_ifs with h1 h2
      · rw [decide_eq_true ⟨h43, Or.inl h1⟩]
      · rw [decide_eq_true ⟨h43, Or.inr h2⟩]
      · rw [decide_eq_false (fun hc => hc.2.elim h1 h2)]

set_option maxRecDepth 100000 in
/-- C3 witness: a 78-character sapling-style candidate with 43 zero payload
bytes and human-readable part zs validates for main. -/
theorem c3_zec_bech32_witness :
    zecBech32ValidatorE "main" zecSapAddr zecSapOpts = .ok true := by
  have h := (c3_zec_bech32 "main" zecSapAddr zecSapOpts).2
    "zs".data (List.replicate 69 0) (List.replicate 43 0) (by decide) (by decide)
  exact h.trans (by rfl)

/-! ### C2 -/

set_option maxRecDepth 100000 in
/-- C2 counterexample: uniAddr decodes under bech32m with the 512 ceiling, its
words repack to uniBytes, and with the identity de-jumble oracle the validator
accepts it for main, although the hex of the configured prefix u right-padded
with zeros to 34 characters (as the claim demands) cannot equal the 32-char
tail of the payload hex: the padding mask in the source is 32 zeros wide, not
34. -/
theorem c2_counterexample :
    zecBech32mValidatorE id "main" uniAddr zecUniOpts = .ok true ∧
    bech32Decode BECH32M_CONST (some 512) uniAddr = some (['u'], uniWords) ∧
    fromWordsE uniWords = .ok uniBytes ∧
    (hexOfBytes (strUtf8 zecUniOpts.mainNetPref) ++ List.replicate 34 '0').take 34 ≠
      (hexOfBytes (id uniBytes)).drop ((hexOfBytes (id uniBytes)).length - 32) := by
  refine ⟨by rfl, by decide, by decide, by decide⟩

/-- C2 amended: for every de-jumble oracle and every candidate that decodes
under bech32m (ceiling 512) and repacks, zecBech32mValidator accepts exactly
when the hex of the UTF-8 bytes of the configured prefix of the given network
(main or test), right-padded with the digit 0 to exactly 32 hex characters,
equals the last 32 hex characters of the de-jumbled payload hex. -/
theorem c2_zec_unified_padding (unjumble : List Nat → List Nat)
    (network address : String) (opts : Bech32Opts)
    (pre : List Char) (words data : List Nat)
    (hdec : bech32Decode BECH32M_CONST (some 512) address = some (pre, words))
    (hfw : fromWordsE words = .ok data) :
    zecBech32mValidatorE unjumble network address opts =
      .ok (decide
        ((network = "main" ∧
           (hexOfBytes (strUtf8 opts.mainNetPref) ++ List.replicate 32 '0').take 32 =
             (hexOfBytes (unjumble data)).drop ((hexOfBytes (unjumble data)).length - 32)) ∨
         (network = "test" ∧
           (hexOfBytes (strUtf8 opts.testNetPref) ++ List.replicate 32 '0').take 32 =
             (hexOfBytes (unjumble data)).drop ((hexOfBytes (unjumble data)).length - 32)))) := by
  have hcp : ∀ (res : List Nat) (p : String), (confirmPadding res p = true) ↔
      ((hexOfBytes (strUtf8 p) ++ List.replicate 32 '0').take 32 =
        (hexOfBytes res).drop ((hexOfBytes res).length - 32)) := by
    intro res p
    unfold confirmPadding
    rw [beq_iff_eq]
    exact ⟨fun h => h.symm, fun h => h.symm⟩
  unfold zecBech32mValidatorE
  rw [hdec]
  simp only []
  rw [hfw]
  simp only []
  split_ifs with h1 h2
  · rw [decide_eq_true (Or.inl ⟨h1.1, (hcp _ _).mp h1.2⟩)]
  · rw [decide_eq_true (Or.inr ⟨h2.1, (hcp _ _).mp h2.2⟩)]
  · rw [decide_eq_false (by
      rintro (⟨hn, hc⟩ | ⟨hn, hc⟩)
      · exact h1 ⟨hn, (hcp _ _).mpr hc⟩
      · exact h2 ⟨hn, (hcp _ _).mpr hc⟩)]

set_option maxRecDepth 100000 in
/-- C2 witness: the amended padding rule applied to uniAddr with the identity
de-jumble oracle accepts for main with configured prefix u. -/
theorem c2_zec_unified_padding_witness :
    zecBech32mValidatorE id "main" uniAddr zecUniOpts = .ok true := by
  have h := c2_zec_unified_padding id "main" uniAddr zecUniOpts
    ['u'] uniWords uniBytes (by decide) (by decide)
  exact h.trans (by rfl)

/-! ### C6 -/

/-- One alternative matches exactly when it is nonempty and a prefix of the
buffer: the inner loop of validatePrefix never returns true for an empty
alternative, because its success line is only reached at the last byte of the
alternative. -/
theorem altMatches_iff (cur buf : List Nat) :
    altMatches cur buf = true ↔ cur ≠ [] ∧ cur <+: buf := by
  induction cur generalizing buf with
  | nil => simp [altMatches]
  | cons c cs ih =>
    cases buf with
    | nil => cases cs <;> simp [altMatches]
    | cons b bs =>
      cases cs with
      | nil => simp [altMatches, List.cons_prefix_cons]
      | cons c2 cs2 =>
        simp [altMatches, List.cons_prefix_cons, ih bs]

/-- The outer loop of validatePrefix tries every alternative. -/
theorem validatePfx_iff (pfx : List (List Nat)) (buf : List Nat) :
    validatePfx pfx buf = true ↔ ∃ alt ∈ pfx, alt ≠ [] ∧ alt <+: buf := by
  unfold validatePfx
  rw [List.any_eq_true]
  constructor
  · rintro ⟨alt, hm, hA⟩
    exact ⟨alt, hm, (altMatches_iff _ _).mp hA⟩
  · rintro ⟨alt, hm, h⟩
    exact ⟨alt, hm, (altMatches_iff _ _).mpr h⟩

/-- C6 counterexample: with a decoded buffer of the configured length and a
main-net prefix set holding one empty alternative, the decoded bytes trivially
start with that alternative, yet base58Validator rejects: the byte-by-byte
loop returns true only at the last byte of an alternative and an empty
alternative has none. -/
theorem c6_counterexample :
    base58Validator b58CeDecode "main" "addr" b58CeOpts = false ∧
    b58CeDecode "addr" = some (List.replicate 21 65) ∧
    (List.replicate 21 (65 : Nat)).length = b58CeOpts.bufferLength ∧
    ∃ alt ∈ b58CeOpts.mainNetPfx, alt <+: List.replicate 21 65 := by
  refine ⟨by rfl, by rfl, by decide, ⟨[], by decide, by decide⟩⟩

/-- C6 amended: for every decode oracle, base58Validator returns false on
decode failure and otherwise accepts exactly when the decoded length equals
the configured length, the network tag is recognized (main, test or regtest),
and the decoded bytes start with at least one nonempty alternative of the
configured prefix set of that network (an empty alternative never matches); a
mismatch inside one alternative only discards that alternative. -/
theorem c6_base58 (decode : String → Option (List Nat)) (network address : String)
    (opts : Base58Opts) :
    base58Validator decode network address opts = true ↔
      ∃ buf, decode address = some buf ∧ buf.length = opts.bufferLength ∧
        ((network = "main" ∧ ∃ alt ∈ opts.mainNetPfx, alt ≠ [] ∧ alt <+: buf) ∨
         (network = "test" ∧ ∃ alt ∈ opts.testNetPfx, alt ≠ [] ∧ alt <+: buf) ∨
         (network = "regtest" ∧ ∃ alt ∈ opts.regtestPfx, alt ≠ [] ∧ alt <+: buf)) := by
  unfold base58Validator
  cases hdec : decode address with
  | none => simp
  | some buf =>
    simp only [Option.some.injEq]
    constructor
    · intro h
      by_cases hlen : buf.length ≠ opts.bufferLength
      · rw [if_pos hlen] at h
        exact absurd h (by simp)
      · rw [if_neg hlen] at h
        push_neg at hlen
        refine ⟨buf, rfl, hlen, ?_⟩
        split_ifs at h with h1 h2 h3
        · exact Or.inl ⟨h1, (validatePfx_iff _ _).mp h⟩
        · exact Or.inr (Or.inl ⟨h2, (validatePfx_iff _ _).mp h⟩)
        · exact Or.inr (Or.inr ⟨h3, (validatePfx_iff _ _).mp h⟩)
    · rintro ⟨buf', hbuf, hlen, hnet⟩
      subst hbuf
      rw [if_neg (by simpa using hlen)]
      rcases hnet with ⟨hn, he⟩ | ⟨hn, he⟩ | ⟨hn, he⟩
      · subst hn
        rw [if_pos rfl]
        exact (validatePfx_iff _ _).mpr he
      · subst hn
        rw [if_neg (by decide), if_pos rfl]
        exact (validatePfx_iff _ _).mpr he
      · subst hn
        rw [if_neg (by decide), if_neg (by decide), if_pos rfl]
        exact (validatePfx_iff _ _).mpr he

/-! ### C7 -/

/-- C7 counterexample: a decoded hex string of only eight characters has an
empty payload, and with the Keccak digest of the empty byte string as the
checksum, xmrValidator accepts for main with configured public prefix c5
(lodash startsWith is applied to the whole decoded string, checksum suffix
included), although the payload hex is empty and starts with none of the
three configured main-net prefix alternatives, contrary to the claim. -/
theorem c7_counterexample :
    xmrValidator kEmptyOracle cnEmptyOracle "main" "addr" xmrCeOpts = true ∧
    cnEmptyOracle "addr" = some "c5d24601" ∧
    ("c5d24601".data.take ("c5d24601".data.length - 8) = ([] : List Char)) ∧
    ¬ ("c5".data <+: ([] : List Char)) ∧ ¬ ("zz".data <+: ([] : List Char)) := by
  refine ⟨by rfl, by rfl, by decide, by decide, by decide⟩

/-- C7 amended: for every hash oracle and decode oracle, xmrValidator accepts
exactly when the network is main or test, the whole decoded hex string
(including its trailing eight checksum characters) starts with one of the
three configured prefix alternatives of that network, and the payload hex
(all but the last eight characters) parses to bytes (even length) whose hash
hex starts with the embedded eight-character checksum; an odd-length payload
hex is rejected with no checksum computed. -/
theorem c7_xmr (k : List Nat → List Nat) (cnDecode : String → Option String)
    (network address : String) (opts : XmrOpts) :
    xmrValidator k cnDecode network address opts = true ↔
      ∃ d, cnDecode address = some d ∧
        ((network = "main" ∧
           (opts.mainNetPublicAddrPfx.data <+: d.data ∨
            opts.mainNetIntegratedAddrPfx.data <+: d.data ∨
            opts.mainNetSubAddrPfx.data <+: d.data)) ∨
         (network = "test" ∧
           (opts.testNetPublicAddrPfx.data <+: d.data ∨
            opts.testNetIntegratedAddrPfx.data <+: d.data ∨
            opts.testNetSubAddrPfx.data <+: d.data))) ∧
        (∃ bs, hexToBin (d.data.take (d.data.length - 8)) = some bs ∧
          d.data.drop (d.data.length - 8) = (hexOfBytes (k bs)).take 8) := by
  unfold xmrValidator
  cases hdec : cnDecode address with
  | none => simp
  | some d =>
    simp only [Option.some.injEq]
    constructor
    · intro h
      split_ifs at h with h1 h2
      · obtain ⟨hn, hm, hc⟩ := h1
        rw [Option.map_eq_some'] at hc
        obtain ⟨bs, hbin, hfb⟩ := hc
        refine ⟨d, rfl, Or.inl ⟨hn, ?_⟩, bs, hbin, hfb.symm⟩
        simpa [List.isPrefixOf_iff_prefix, or_assoc] using hm
      · obtain ⟨hn, hm, hc⟩ := h2
        rw [Option.map_eq_some'] at hc
        obtain ⟨bs, hbin, hfb⟩ := hc
        refine ⟨d, rfl, Or.inr ⟨hn, ?_⟩, bs, hbin, hfb.symm⟩
        simpa [List.isPrefixOf_iff_prefix, or_assoc] using hm
    · rintro ⟨d', hd, hnet, bs, hbin, hcs⟩
      subst hd
      rcases hnet with ⟨hn, hm⟩ | ⟨hn, hm⟩
      · subst hn
        rw [if_pos ⟨rfl, by simpa [List.isPrefixOf_iff_prefix, or_assoc] using hm,
          Option.map_eq_some'.mpr ⟨bs, hbin, hcs.symm⟩⟩]
      · subst hn
        rw [if_neg (by rintro ⟨hc, -⟩; exact absurd hc (by decide)),
          if_pos ⟨rfl, by simpa [List.isPrefixOf_iff_prefix, or_assoc] using hm,
            Option.map_eq_some'.mpr ⟨bs, hbin, hcs.symm⟩⟩]

/-! ### C8 -/

/-- C8: with a positive length limit, bech32Validator is in invoice mode: it
accepts exactly when the candidate decodes under the bech32 checksum
permitting up to limit characters and the lower-cased candidate literally
starts with the configured prefix of network main or test (no witness-version
or payload-length check is performed); and isBech32Address accepts exactly
when the validator accepts under the main or the test configuration. -/
theorem c8_invoice_mode (network address : String) (opts : Bech32Opts) (n : Nat)
    (hn : 0 < n) :
    (bech32ValidatorE network address opts (some n) =
      .ok (decide ((bech32Decode BECH32_CONST (some n) address).isSome ∧
        ((network = "main" ∧ opts.mainNetPref.data.isPrefixOf (lowerL address.data) = true) ∨
         (network = "test" ∧ opts.testNetPref.data.isPrefixOf (lowerL address.data) = true))))) ∧
    (isBech32AddressE address opts n = .ok true ↔
      (bech32ValidatorE "main" address opts (some n) = .ok true ∨
       bech32ValidatorE "test" address opts (some n) = .ok true)) := by
  have key : ∀ net : String, bech32ValidatorE net address opts (some n) =
      .ok (decide ((bech32Decode BECH32_CONST (some n) address).isSome ∧
        ((net = "main" ∧ opts.mainNetPref.data.isPrefixOf (lowerL address.data) = true) ∨
         (net = "test" ∧ opts.testNetPref.data.isPrefixOf (lowerL address.data) = true)))) := by
    intro net
    unfold bech32ValidatorE
    cases hdec : bech32Decode BECH32_CONST (some n) address with
    | none => simp
    | some pw =>
      obtain ⟨pre, words⟩ := pw
      simp only []
      rw [if_pos (show decide (n ≠ 0) = true by simp; omega)]
      split_ifs with h1 h2
      · rw [decide_eq_true ⟨by simp, Or.inl h1⟩]
      · rw [decide_eq_true ⟨by simp, Or.inr h2⟩]
      · rw [decide_eq_false (by rintro ⟨-, hd | hd⟩; exacts [h1 hd, h2 hd])]
  refine ⟨key network, ?_⟩
  constructor
  · intro h
    unfold isBech32AddressE at h
    cases hm : bech32ValidatorE "main" address opts (some n) with
    | error e => rw [hm] at h; simp at h
    | ok b =>
      rw [hm] at h
      cases b with
      | true => exact Or.inl rfl
      | false => exact Or.inr h
  · rintro (h | h)
    · unfold isBech32AddressE
      rw [h]
    · unfold isBech32AddressE
      rw [key "main"]
      cases hX : decide ((bech32Decode BECH32_CONST (some n) address).isSome ∧
        (("main" : String) = "main" ∧ opts.mainNetPref.data.isPrefixOf (lowerL address.data) = true ∨
         ("main" : String) = "test" ∧ opts.testNetPref.data.isPrefixOf (lowerL address.data) = true)) with
      | true => rfl
      | false => exact h

/-- C8 witness: a 9-character bech32 string with human-readable part bc, in
invoice mode with limit 20, is accepted for main and by the dual-network
convenience entry point. -/
theorem c8_invoice_mode_witness :
    0 < 20 ∧ bech32ValidatorE "main" invoiceAddr btcOpts (some 20) = .ok true ∧
    isBech32AddressE invoiceAddr btcOpts 20 = .ok true := by
  have h := c8_invoice_mode "main" invoiceAddr btcOpts 20 (by decide)
  refine ⟨by decide, h.1.trans (by rfl), h.2.mpr (Or.inl (h.1.trans (by rfl)))⟩

/-! ### C9 -/

/-- Every character of a label accepted by labelOK is a letter, a digit or a
hyphen. -/
theorem labelOK_chars {l : List Char} (h : labelOK l = true) :
    ∀ c ∈ l, isLabelChar c = true := by
  unfold labelOK at h
  simp only [Bool.and_eq_true] at h
  exact List.all_eq_true.mp h.1.1.2

/-- A label accepted by labelOK contains no dot. -/
theorem labelOK_no_dot {l : List Char} (h : labelOK l = true) : '.' ∉ l :=
  fun hm => absurd (labelOK_chars h '.' hm) (by decide)

/-- The head of a nonempty dropWhile result falsifies the predicate. -/
theorem dropWhile_head_false (p : Char → Bool) :
    ∀ (l : List Char) (a : Char) (t : List Char), l.dropWhile p = a :: t → p a = false := by
  intro l
  induction l with
  | nil => intro a t h; exact absurd h (by simp)
  | cons b l ih =>
    intro a t h
    by_cases hb : p b
    · rw [List.dropWhile_cons, if_pos hb] at h
      exact ih a t h
    · rw [List.dropWhile_cons, if_neg hb] at h
      injection h with h1 h2
      subst h1
      exact eq_false_of_ne_true hb

/-- takeWhile stops exactly at a separator placed after an all-true run. -/
theorem takeWhile_append_cons (p : Char → Bool) (l : List Char) (x : Char) (t : List Char)
    (hl : ∀ c ∈ l, p c = true) (hx : p x = false) :
    (l ++ x :: t).takeWhile p = l := by
  induction l with
  | nil => simp [List.takeWhile_cons, hx]
  | cons a l ih =>
    have ha := hl a (by simp)
    simp only [List.cons_append, List.takeWhile_cons, ha, if_true]
    rw [ih (fun c hc => hl c (by simp [hc]))]

/-- dropWhile resumes exactly at a separator placed after an all-true run. -/
theorem dropWhile_append_cons (p : Char → Bool) (l : List Char) (x : Char) (t : List Char)
    (hl : ∀ c ∈ l, p c = true) (hx : p x = false) :
    (l ++ x :: t).dropWhile p = x :: t := by
  induction l with
  | nil => simp [List.dropWhile_cons, hx]
  | cons a l ih =>
    have ha := hl a (by simp)
    simp only [List.cons_append, List.dropWhile_cons, ha, if_true]
    exact ih (fun c hc => hl c (by simp [hc]))

/-- C9: Blackpay.validate ignores its network argument entirely (null and
undefined included) and accepts exactly the addresses of email shape: a
nonempty run of local characters, one at sign, and a nonempty dot-separated
sequence of valid domain labels; no address decoding, checksum or
cryptocurrency prefix check is involved. -/
theorem c9_blackpay_email (n1 n2 : Option (Option String)) (address : String) :
    blackpayValidate n1 address = blackpayValidate n2 address ∧
    (blackpayValidate n1 address = true ↔ EmailShape address) := by
  refine ⟨rfl, ?_⟩
  unfold blackpayValidate emailRegexTest
  constructor
  · intro h
    cases hdw : address.data.dropWhile (fun c => c != '@') with
    | nil => rw [hdw] at h; simp at h
    | cons a dom =>
      rw [hdw] at h
      simp only [Bool.and_eq_true, decide_eq_true_eq] at h
      obtain ⟨⟨hne, hloc⟩, hlab⟩ := h
      have ha : a = '@' := by
        have := dropWhile_head_false _ _ _ _ hdw
        simpa using this
      subst ha
      refine ⟨address.data.takeWhile (fun c => c != '@'), dom, dom.splitOn '.', ?_, hne,
        List.all_eq_true.mp hloc, ?_, ?_, List.all_eq_true.mp hlab⟩
      · conv_lhs => rw [← List.takeWhile_append_dropWhile (fun c => c != '@') address.data]
        rw [hdw]
      · rw [show dom.splitOn '.' = dom.splitOnP (· == '.') from rfl]
        exact List.splitOnP_ne_nil _ dom
      · exact (List.intercalate_splitOn dom '.').symm
  · rintro ⟨loc, dom, labels, hsplit, hne, hloc, hlne, hdom, hlab⟩
    have hploc : ∀ c ∈ loc, (fun c => c != '@') c = true := by
      intro c hc
      simp only [bne_iff_ne, ne_eq, decide_eq_true_eq]
      intro hceq
      subst hceq
      exact absurd (hloc '@' hc) (by decide)
    have hpat : (fun c => c != '@') '@' = false := by decide
    rw [hsplit, dropWhile_append_cons _ _ _ _ hploc hpat,
      takeWhile_append_cons _ _ _ _ hploc hpat]
    simp only [Bool.and_eq_true, decide_eq_true_eq]
    refine ⟨⟨hne, List.all_eq_true.mpr hloc⟩, ?_⟩
    rw [hdom, List.splitOn_intercalate labels '.' (fun l hl => labelOK_no_dot (hlab l hl)) hlne]
    exact List.all_eq_true.mpr hlab
